import Mathlib

/-!
Verification of the bookstore sales-ledger engine (`src/bookstore_manager.py`).

The SQLite tables are modelled as Lean lists in insertion (rowid) order; the
`AUTOINCREMENT` sale key is modelled by an explicit `nextSid` counter that is
incremented on every insert and never reused after a delete, matching SQLite
`AUTOINCREMENT` semantics.  Each mutating operation is a pure function
`DB → args → DB × Option Err`: the returned `DB` is the table state after the
call (the early-return validation paths of the source execute no SQL writes,
so they return the input state unchanged), and the `Option Err` component is
`none` exactly when the source function commits and reports success.
-/

namespace Bookstore

/-- A row of the `member` table. -/
structure Member where
  mid : String
  mname : String
  mphone : String
  memail : Option String
deriving DecidableEq, Repr

/-- A row of the `book` table. -/
structure Book where
  bid : String
  btitle : String
  bprice : Int
  bstock : Int
deriving DecidableEq, Repr

/-- A row of the `sale` table. -/
structure Sale where
  sid : Nat
  sdate : String
  mid : String
  bid : String
  sqty : Int
  sdiscount : Int
  stotal : Int
deriving DecidableEq, Repr

/-- The whole store: the three tables plus the `AUTOINCREMENT` counter for
`sale.sid`. -/
structure DB where
  members : List Member
  books : List Book
  sales : List Sale
  nextSid : Nat
deriving DecidableEq, Repr

/-- The failure kinds the source's operations report (each early `return`
with a distinct message in `add_sale` / `update_sale` / `delete_sale`). -/
inductive Err
  | invalidDate
  | memberNotFound
  | bookNotFound
  | invalidQtyOrDiscount
  | insufficientStock
  | saleNotFound
deriving DecidableEq, Repr

/-- The store right after `CREATE TABLE`, before any row exists.  SQLite
assigns rowid 1 to the first inserted sale. -/
def emptyDB : DB := ⟨[], [], [], 1⟩

/-- `initialize_db`: `INSERT OR IGNORE` of the seed member `M001` and the seed
book `B001` (price 500, stock 10). -/
def initialize_db (db : DB) : DB :=
  { db with
    members :=
      if db.members.any (fun m => m.mid == "M001") then db.members
      else db.members ++ [⟨"M001", "Alice", "0912345678", some "alice@example.com"⟩],
    books :=
      if db.books.any (fun b => b.bid == "B001") then db.books
      else db.books ++ [⟨"B001", "Python入門", 500, 10⟩] }

/-- The seeded store: `initialize_db` run once on the empty store. -/
def seedDB : DB := initialize_db emptyDB

/-- `SELECT * FROM member WHERE mid = ?` (first row; `mid` is the primary
key). -/
def findMember (db : DB) (mid : String) : Option Member :=
  db.members.find? (fun m => m.mid == mid)

/-- `SELECT * FROM book WHERE bid = ?` (first row; `bid` is the primary
key). -/
def findBook (db : DB) (bid : String) : Option Book :=
  db.books.find? (fun b => b.bid == bid)

/-- `SELECT * FROM sale WHERE sid = ?` (first row; `sid` is the primary
key). -/
def findSale (db : DB) (sid : Nat) : Option Sale :=
  db.sales.find? (fun s => s.sid == sid)

/-- The date guard of `add_sale`:
`len(sdate) == 10 and sdate.count('-') == 2`. -/
def dateOk (sdate : String) : Bool :=
  sdate.length == 10 && sdate.toList.count '-' == 2

/-- `UPDATE book SET bstock = <f>(bstock) WHERE bid = ?`: apply `f` to the
stock of every book row whose `bid` matches. -/
def updateStockWhere (books : List Book) (bid : String) (f : Int → Int) :
    List Book :=
  books.map (fun b => if b.bid == bid then { b with bstock := f b.bstock } else b)

/-- `add_sale(conn, sdate, mid, bid, sqty, sdiscount)`: validate the date
shape, the member id, the book id, quantity/discount signs and the stock
level in that order (first failing check returns its error with no write),
then insert the sale row with `stotal = bprice * sqty - sdiscount` and
decrement the book's stock by `sqty`. -/
def add_sale (db : DB) (sdate mid bid : String) (sqty sdiscount : Int) :
    DB × Option Err :=
  if ¬ dateOk sdate then (db, some .invalidDate)
  else
    match findMember db mid with
    | none => (db, some .memberNotFound)
    | some _ =>
      match findBook db bid with
      | none => (db, some .bookNotFound)
      | some book =>
        if sqty ≤ 0 ∨ sdiscount < 0 then (db, some .invalidQtyOrDiscount)
        else if book.bstock < sqty then (db, some .insufficientStock)
        else
          ({ db with
              sales := db.sales ++
                [⟨db.nextSid, sdate, mid, bid, sqty, sdiscount,
                  book.bprice * sqty - sdiscount⟩],
              nextSid := db.nextSid + 1,
              books := updateStockWhere db.books bid (fun x => x - sqty) },
            none)

/-- The store-mutating core of `update_sale`: look the sale up joined with
its book (`SELECT * FROM sale JOIN book ON sale.bid = book.bid WHERE
sid = ?`; no row also when the book is gone), recompute
`stotal = bprice * sqty - new_discount` from the joined row, and persist the
new discount and total for that sale id. -/
def update_sale (db : DB) (sid : Nat) (newDiscount : Int) : DB × Option Err :=
  match findSale db sid with
  | none => (db, some .saleNotFound)
  | some s =>
    match findBook db s.bid with
    | none => (db, some .saleNotFound)
    | some book =>
      ({ db with
          sales := db.sales.map (fun t =>
            if t.sid == sid then
              { t with sdiscount := newDiscount,
                       stotal := book.bprice * s.sqty - newDiscount }
            else t) },
        none)

/-- The store-mutating core of `delete_sale`: look the sale up by id, add its
quantity back to the stock of every book row matching its `bid` (a no-op when
none matches), and delete the sale row. -/
def delete_sale (db : DB) (sid : Nat) : DB × Option Err :=
  match findSale db sid with
  | none => (db, some .saleNotFound)
  | some s =>
    ({ db with
        books := updateStockWhere db.books s.bid (fun x => x + s.sqty),
        sales := db.sales.filter (fun t => ! (t.sid == sid)) },
      none)

/-- One successful mutating operation of the consistency engine. -/
inductive Step : DB → DB → Prop
  | add {db : DB} (sdate mid bid : String) (sqty sdiscount : Int)
      (h : (add_sale db sdate mid bid sqty sdiscount).2 = none) :
      Step db (add_sale db sdate mid bid sqty sdiscount).1
  | upd {db : DB} (sid : Nat) (d : Int)
      (h : (update_sale db sid d).2 = none) :
      Step db (update_sale db sid d).1
  | del {db : DB} (sid : Nat)
      (h : (delete_sale db sid).2 = none) :
      Step db (delete_sale db sid).1

/-- `Reachable σ₀ db`: `db` is obtained from `σ₀` by a finite sequence of
successful create-sale / update-sale / delete-sale operations. -/
inductive Reachable : DB → DB → Prop
  | refl (db : DB) : Reachable db db
  | tail {a b c : DB} : Reachable a b → Step b c → Reachable a c

/-- Sum of the quantities of the sale rows referencing a given book id. -/
def salesSum (db : DB) (bid : String) : Int :=
  ((db.sales.filter (fun s => s.bid == bid)).map Sale.sqty).sum

/-- The stock of the book row with the given id (0 when no row matches). -/
def stockOf (db : DB) (bid : String) : Int :=
  match findBook db bid with
  | some b => b.bstock
  | none => 0

/-- Well-formedness of a store state: sale ids are below the counter and
pairwise distinct, every sale references an existing book row, and every sale
has positive quantity. -/
def GoodState (db : DB) : Prop :=
  (∀ s ∈ db.sales, s.sid < db.nextSid) ∧
  (db.sales.map Sale.sid).Nodup ∧
  (∀ s ∈ db.sales, ∃ b ∈ db.books, b.bid = s.bid) ∧
  (∀ s ∈ db.sales, 0 < s.sqty)

/-- The inductive invariant relating a reachable state to its start state:
the state is well formed, the book rows keep their ids and prices, and for
every book id the stock plus the outstanding sale quantities is conserved. -/
def Inv (σ₀ db : DB) : Prop :=
  GoodState db ∧
  db.books.map Book.bid = σ₀.books.map Book.bid ∧
  db.books.map Book.bprice = σ₀.books.map Book.bprice ∧
  ∀ bid, stockOf db bid + salesSum db bid = stockOf σ₀ bid + salesSum σ₀ bid

/-- The spec's calendar-date shape `YYYY-MM-DD`: exactly ten characters,
digits everywhere except the separators `-` at positions 4 and 7.
Modelled from the spec's words, for comparison with the source's `dateOk`. -/
def calendarShape (s : String) : Bool :=
  match s.toList with
  | [y1, y2, y3, y4, s1, m1, m2, s2, d1, d2] =>
      y1.isDigit && y2.isDigit && y3.isDigit && y4.isDigit &&
      (s1 == '-') && m1.isDigit && m2.isDigit && (s2 == '-') &&
      d1.isDigit && d2.isDigit
  | _ => false

/-- The store after the seed plus one sale of 2 copies of `B001` with
discount 50 (the spec's Scenario 1). -/
def afterSale1 : DB := (add_sale seedDB "2024-01-15" "M001" "B001" 2 50).1

/-- A store holding one sale row whose referenced book row is absent. -/
def orphanDB : DB :=
  ⟨[], [], [⟨1, "2024-01-15", "M001", "B999", 2, 0, 1000⟩], 2⟩

/-! ### List-level helper lemmas about the stock update and the sale maps -/

theorem bid_updateStock (bid₀ : String) (f : Int → Int) (b : Book) :
    ((if b.bid == bid₀ then { b with bstock := f b.bstock } else b) : Book).bid
      = b.bid := by
  by_cases h0 : b.bid == bid₀ <;> simp [h0]

theorem bprice_updateStock (bid₀ : String) (f : Int → Int) (b : Book) :
    ((if b.bid == bid₀ then { b with bstock := f b.bstock } else b) : Book).bprice
      = b.bprice := by
  by_cases h0 : b.bid == bid₀ <;> simp [h0]

theorem find?_updateStockWhere (books : List Book) (bid₀ bid : String)
    (f : Int → Int) :
    (updateStockWhere books bid₀ f).find? (fun b => b.bid == bid) =
      (books.find? (fun b => b.bid == bid)).map
        (fun b => if b.bid == bid₀ then { b with bstock := f b.bstock } else b) := by
  induction books with
  | nil => rfl
  | cons b bs ih =>
    simp only [updateStockWhere, List.map_cons, List.find?_cons] at ih ⊢
    rw [bid_updateStock]
    cases h1 : b.bid == bid
    · exact ih
    · rfl

theorem map_bid_updateStockWhere (books : List Book) (bid₀ : String)
    (f : Int → Int) :
    (updateStockWhere books bid₀ f).map Book.bid = books.map Book.bid := by
  induction books with
  | nil => rfl
  | cons b bs ih =>
    simp only [updateStockWhere, List.map_cons] at ih ⊢
    rw [bid_updateStock, ih]

theorem map_bprice_updateStockWhere (books : List Book) (bid₀ : String)
    (f : Int → Int) :
    (updateStockWhere books bid₀ f).map Book.bprice = books.map Book.bprice := by
  induction books with
  | nil => rfl
  | cons b bs ih =>
    simp only [updateStockWhere, List.map_cons] at ih ⊢
    rw [bprice_updateStock, ih]

theorem updateStockWhere_eq_of_absent (books : List Book) (bid₀ : String)
    (f : Int → Int) (h : ∀ b ∈ books, (b.bid == bid₀) = false) :
    updateStockWhere books bid₀ f = books := by
  induction books with
  | nil => rfl
  | cons b bs ih =>
    have hb := h b (List.mem_cons_self b bs)
    simp only [updateStockWhere, List.map_cons] at ih ⊢
    rw [hb]
    simp only [if_neg Bool.false_ne_true, List.cons.injEq, true_and]
    exact ih fun x hx => h x (List.mem_cons_of_mem b hx)

theorem mem_updateStockWhere_of_mem (books : List Book) (bid₀ : String)
    (f : Int → Int) (b : Book) (hb : b ∈ books) :
    ∃ b' ∈ updateStockWhere books bid₀ f, b'.bid = b.bid := by
  refine ⟨if b.bid == bid₀ then { b with bstock := f b.bstock } else b,
    List.mem_map_of_mem _ hb, ?_⟩
  by_cases h0 : b.bid == bid₀ <;> simp [h0]

theorem tuple_updateDiscount (sid₀ : Nat) (d t : Int) (s : Sale) :
    ((if s.sid == sid₀ then { s with sdiscount := d, stotal := t } else s) : Sale).sid
        = s.sid ∧
      ((if s.sid == sid₀ then { s with sdiscount := d, stotal := t } else s) : Sale).sdate
        = s.sdate ∧
      ((if s.sid == sid₀ then { s with sdiscount := d, stotal := t } else s) : Sale).mid
        = s.mid ∧
      ((if s.sid == sid₀ then { s with sdiscount := d, stotal := t } else s) : Sale).bid
        = s.bid ∧
      ((if s.sid == sid₀ then { s with sdiscount := d, stotal := t } else s) : Sale).sqty
        = s.sqty := by
  by_cases h0 : s.sid == sid₀ <;> simp [h0]

theorem find?_saleUpdate (sales : List Sale) (sid₀ sid : Nat) (d t : Int) :
    (sales.map (fun s =>
        if s.sid == sid₀ then { s with sdiscount := d, stotal := t } else s)).find?
        (fun s => s.sid == sid) =
      (sales.find? (fun s => s.sid == sid)).map (fun s =>
        if s.sid == sid₀ then { s with sdiscount := d, stotal := t } else s) := by
  induction sales with
  | nil => rfl
  | cons s ss ih =>
    simp only [List.map_cons, List.find?_cons] at ih ⊢
    rw [(tuple_updateDiscount sid₀ d t s).1]
    cases h1 : s.sid == sid
    · exact ih
    · rfl

theorem map_sid_saleUpdate (sales : List Sale) (sid₀ : Nat) (d t : Int) :
    (sales.map (fun s =>
        if s.sid == sid₀ then { s with sdiscount := d, stotal := t } else s)).map
        Sale.sid = sales.map Sale.sid := by
  induction sales with
  | nil => rfl
  | cons s ss ih =>
    simp only [List.map_cons] at ih ⊢
    rw [(tuple_updateDiscount sid₀ d t s).1, ih]

theorem map_frame_saleUpdate (sales : List Sale) (sid₀ : Nat) (d t : Int) :
    (sales.map (fun s =>
        if s.sid == sid₀ then { s with sdiscount := d, stotal := t } else s)).map
        (fun s => (s.sid, s.sdate, s.mid, s.bid, s.sqty)) =
      sales.map (fun s => (s.sid, s.sdate, s.mid, s.bid, s.sqty)) := by
  induction sales with
  | nil => rfl
  | cons s ss ih =>
    simp only [List.map_cons] at ih ⊢
    obtain ⟨h1, h2, h3, h4, h5⟩ := tuple_updateDiscount sid₀ d t s
    rw [h1, h2, h3, h4, h5, ih]

theorem qty_filter_saleUpdate (sales : List Sale) (sid₀ : Nat) (d t : Int)
    (bid : String) :
    (((sales.map (fun s =>
        if s.sid == sid₀ then { s with sdiscount := d, stotal := t } else s)).filter
        (fun s => s.bid == bid)).map Sale.sqty) =
      ((sales.filter (fun s => s.bid == bid)).map Sale.sqty) := by
  induction sales with
  | nil => rfl
  | cons s ss ih =>
    simp only [List.map_cons, List.filter_cons] at ih ⊢
    obtain ⟨h1, h2, h3, h4, h5⟩ := tuple_updateDiscount sid₀ d t s
    rw [h4]
    cases hb : s.bid == bid
    · rw [if_neg Bool.false_ne_true, if_neg Bool.false_ne_true]
      exact ih
    · rw [if_pos rfl, if_pos rfl, List.map_cons, List.map_cons, h5, ih]

theorem delete_filter_eq_of_head (sales : List Sale) (sid : Nat)
    (h : ∀ u ∈ sales, (u.sid == sid) = false) :
    sales.filter (fun t => ! (t.sid == sid)) = sales := by
  induction sales with
  | nil => rfl
  | cons s ss ih =>
    have hs := h s (List.mem_cons_self s ss)
    have ih' := ih fun u hu => h u (List.mem_cons_of_mem s hu)
    simp [List.filter_cons, hs, ih']

theorem nodup_head_not_mem (s : Sale) (ss : List Sale) (sid : Nat)
    (hnd : ((s :: ss).map Sale.sid).Nodup) (hs : (s.sid == sid) = true) :
    ∀ u ∈ ss, (u.sid == sid) = false := by
  intro u hu
  simp only [List.map_cons, List.nodup_cons] at hnd
  have hne : u.sid ≠ s.sid := by
    intro he
    exact hnd.1 (he ▸ List.mem_map_of_mem Sale.sid hu)
  have : s.sid = sid := by simpa using hs
  simp [this ▸ hne]

theorem delete_qty_sum (sales : List Sale) (sid : Nat) (s : Sale) (bid : String)
    (hfind : sales.find? (fun t => t.sid == sid) = some s)
    (hnd : (sales.map Sale.sid).Nodup) :
    (((sales.filter (fun t => ! (t.sid == sid))).filter
        (fun t => t.bid == bid)).map Sale.sqty).sum =
      ((sales.filter (fun t => t.bid == bid)).map Sale.sqty).sum -
        (if s.bid == bid then s.sqty else 0) := by
  induction sales with
  | nil => simp at hfind
  | cons t ts ih =>
    rw [List.find?_cons] at hfind
    cases ht : t.sid == sid
    · rw [ht] at hfind
      have hfind' : ts.find? (fun u => u.sid == sid) = some s := hfind
      have ht' : ¬ t.sid = sid := by simpa using ht
      have hnd' : (ts.map Sale.sid).Nodup := by
        simpa using (List.nodup_cons.mp (by simpa using hnd)).2
      have hrec := ih hfind' hnd'
      by_cases hb' : t.bid = bid <;>
        simp [List.filter_cons, ht', hb'] at hrec ⊢ <;> linarith [hrec]
    · rw [ht] at hfind
      have hts : t = s := by simpa using hfind
      subst hts
      have hrest := nodup_head_not_mem t ts sid hnd ht
      have ht' : t.sid = sid := by simpa using ht
      have hfilter := delete_filter_eq_of_head ts sid hrest
      by_cases hb' : t.bid = bid <;>
        simp [List.filter_cons, ht', hb', hfilter]

theorem delete_length (sales : List Sale) (sid : Nat) (s : Sale)
    (hfind : sales.find? (fun t => t.sid == sid) = some s)
    (hnd : (sales.map Sale.sid).Nodup) :
    (sales.filter (fun t => ! (t.sid == sid))).length + 1 = sales.length := by
  induction sales with
  | nil => simp at hfind
  | cons t ts ih =>
    rw [List.find?_cons] at hfind
    cases ht : t.sid == sid
    · rw [ht] at hfind
      have hfind' : ts.find? (fun u => u.sid == sid) = some s := hfind
      have ht' : ¬ t.sid = sid := by simpa using ht
      have hnd' : (ts.map Sale.sid).Nodup := by
        simpa using (List.nodup_cons.mp (by simpa using hnd)).2
      have hrec := ih hfind' hnd'
      simp only [List.filter_cons] at hrec ⊢
      simp [ht'] at hrec ⊢
      omega
    · rw [ht] at hfind
      have hrest := nodup_head_not_mem t ts sid hnd ht
      have ht' : t.sid = sid := by simpa using ht
      simp [List.filter_cons, ht', delete_filter_eq_of_head ts sid hrest]

/-! ### Characterizations of the three mutating operations -/

theorem add_sale_ok (db : DB) (sdate mid bid : String) (sqty sdiscount : Int)
    (h : (add_sale db sdate mid bid sqty sdiscount).2 = none) :
    dateOk sdate = true ∧ (∃ m, findMember db mid = some m) ∧
      ∃ book, findBook db bid = some book ∧ 0 < sqty ∧ 0 ≤ sdiscount ∧
        sqty ≤ book.bstock ∧
        add_sale db sdate mid bid sqty sdiscount =
          ({ db with
              sales := db.sales ++ [⟨db.nextSid, sdate, mid, bid, sqty, sdiscount,
                book.bprice * sqty - sdiscount⟩],
              nextSid := db.nextSid + 1,
              books := updateStockWhere db.books bid (fun x => x - sqty) }, none) := by
  unfold add_sale at h ⊢
  by_cases hd : dateOk sdate
  · rw [if_neg (by simp [hd])] at h ⊢
    cases hm : findMember db mid with
    | none => rw [hm] at h; simp at h
    | some m =>
      rw [hm] at h
      dsimp only at h ⊢
      cases hb : findBook db bid with
      | none => rw [hb] at h; simp at h
      | some book =>
        rw [hb] at h
        dsimp only at h ⊢
        by_cases hq : sqty ≤ 0 ∨ sdiscount < 0
        · rw [if_pos hq] at h; simp at h
        · rw [if_neg hq] at h ⊢
          by_cases hs : book.bstock < sqty
          · rw [if_pos hs] at h; simp at h
          · rw [if_neg hs]
            push_neg at hq hs
            exact ⟨hd, ⟨m, rfl⟩, book, rfl, hq.1, hq.2, hs, rfl⟩
  · rw [if_pos (by simp [hd])] at h
    simp at h

theorem add_sale_err_state (db : DB) (sdate mid bid : String)
    (sqty sdiscount : Int) (e : Err)
    (h : (add_sale db sdate mid bid sqty sdiscount).2 = some e) :
    (add_sale db sdate mid bid sqty sdiscount).1 = db := by
  by_cases hnone : (add_sale db sdate mid bid sqty sdiscount).2 = none
  · rw [hnone] at h; exact absurd h (by simp)
  · unfold add_sale at hnone ⊢
    by_cases hd : dateOk sdate
    · rw [if_neg (by simp [hd])] at hnone ⊢
      cases hm : findMember db mid with
      | none => rfl
      | some m =>
        rw [hm] at hnone
        dsimp only at hnone ⊢
        cases hb : findBook db bid with
        | none => rfl
        | some book =>
          rw [hb] at hnone
          dsimp only at hnone ⊢
          by_cases hq : sqty ≤ 0 ∨ sdiscount < 0
          · rw [if_pos hq]
          · rw [if_neg hq] at hnone ⊢
            by_cases hs : book.bstock < sqty
            · rw [if_pos hs]
            · rw [if_neg hs] at hnone
              simp at hnone
    · rw [if_pos (by simp [hd])]

theorem update_sale_ok (db : DB) (sid : Nat) (d : Int)
    (h : (update_sale db sid d).2 = none) :
    ∃ s, findSale db sid = some s ∧
      ∃ book, findBook db s.bid = some book ∧
        update_sale db sid d =
          ({ db with
              sales := db.sales.map (fun t =>
                if t.sid == sid then
                  { t with sdiscount := d,
                           stotal := book.bprice * s.sqty - d }
                else t) }, none) := by
  unfold update_sale at h ⊢
  cases hs : findSale db sid with
  | none => rw [hs] at h; simp at h
  | some s =>
    rw [hs] at h
    dsimp only at h ⊢
    cases hb : findBook db s.bid with
    | none => rw [hb] at h; simp at h
    | some book =>
      exact ⟨s, rfl, book, hb, rfl⟩

theorem update_sale_err_state (db : DB) (sid : Nat) (d : Int) (e : Err)
    (h : (update_sale db sid d).2 = some e) :
    (update_sale db sid d).1 = db := by
  unfold update_sale at h ⊢
  cases hs : findSale db sid with
  | none => rfl
  | some s =>
    rw [hs] at h
    dsimp only at h ⊢
    cases hb : findBook db s.bid with
    | none => rfl
    | some book => rw [hb] at h; simp at h

theorem delete_sale_ok (db : DB) (sid : Nat)
    (h : (delete_sale db sid).2 = none) :
    ∃ s, findSale db sid = some s ∧
      delete_sale db sid =
        ({ db with
            books := updateStockWhere db.books s.bid (fun x => x + s.sqty),
            sales := db.sales.filter (fun t => ! (t.sid == sid)) }, none) := by
  unfold delete_sale at h ⊢
  cases hs : findSale db sid with
  | none => rw [hs] at h; simp at h
  | some s => exact ⟨s, rfl, rfl⟩

theorem delete_sale_not_found (db : DB) (sid : Nat)
    (h : findSale db sid = none) :
    delete_sale db sid = (db, some Err.saleNotFound) := by
  unfold delete_sale
  rw [h]

/-! ### Stock and sale-sum accounting lemmas -/

theorem stockOf_eq_of_books_eq (db' db : DB) (h : db'.books = db.books)
    (bid : String) : stockOf db' bid = stockOf db bid := by
  unfold stockOf findBook
  rw [h]

theorem stockOf_upd_ne (db' db : DB) (bid₀ : String) (f : Int → Int)
    (h : db'.books = updateStockWhere db.books bid₀ f) (bid : String)
    (hne : bid ≠ bid₀) : stockOf db' bid = stockOf db bid := by
  unfold stockOf findBook
  rw [h, find?_updateStockWhere]
  cases hfb : db.books.find? (fun b => b.bid == bid) with
  | none => rfl
  | some b =>
    have hbid : b.bid = bid := by simpa using List.find?_some hfb
    simp [hbid, hne]

theorem stockOf_upd_eq (db' db : DB) (bid₀ : String) (f : Int → Int)
    (h : db'.books = updateStockWhere db.books bid₀ f) (b : Book)
    (hfb : findBook db bid₀ = some b) : stockOf db' bid₀ = f b.bstock := by
  unfold stockOf findBook
  unfold findBook at hfb
  rw [h, find?_updateStockWhere, hfb]
  have hbid : b.bid = bid₀ := by simpa using List.find?_some hfb
  simp [hbid]

theorem salesSum_eq_of_sales_eq (db' db : DB) (h : db'.sales = db.sales)
    (bid : String) : salesSum db' bid = salesSum db bid := by
  unfold salesSum
  rw [h]

theorem salesSum_append (db' db : DB) (s : Sale) (h : db'.sales = db.sales ++ [s])
    (bid : String) :
    salesSum db' bid = salesSum db bid + (if s.bid == bid then s.sqty else 0) := by
  unfold salesSum
  rw [h, List.filter_append]
  cases hb : s.bid == bid <;>
    simp [List.filter_cons, hb]

theorem salesSum_saleUpdate (db' db : DB) (sid₀ : Nat) (d t : Int)
    (h : db'.sales = db.sales.map (fun u =>
      if u.sid == sid₀ then { u with sdiscount := d, stotal := t } else u))
    (bid : String) : salesSum db' bid = salesSum db bid := by
  unfold salesSum
  rw [h, qty_filter_saleUpdate]

theorem salesSum_delete (db' db : DB) (sid : Nat) (s : Sale)
    (h : db'.sales = db.sales.filter (fun u => ! (u.sid == sid)))
    (hfind : findSale db sid = some s)
    (hnd : (db.sales.map Sale.sid).Nodup) (bid : String) :
    salesSum db' bid = salesSum db bid - (if s.bid == bid then s.sqty else 0) := by
  unfold salesSum
  rw [h]
  exact delete_qty_sum db.sales sid s bid hfind hnd

/-! ### Preservation of the invariant by each operation -/

theorem inv_add (σ₀ db : DB) (sdate mid bid : String) (sqty sdiscount : Int)
    (hI : Inv σ₀ db) (h : (add_sale db sdate mid bid sqty sdiscount).2 = none) :
    Inv σ₀ (add_sale db sdate mid bid sqty sdiscount).1 := by
  obtain ⟨hd, ⟨m, hm⟩, book, hb, hq, hdisc, hstk, heq⟩ :=
    add_sale_ok db sdate mid bid sqty sdiscount h
  obtain ⟨⟨hsid, hnd, href, hqty⟩, hbid, hprice, hacct⟩ := hI
  rw [heq]
  have hbmem : book ∈ db.books := List.mem_of_find?_eq_some hb
  have hbbid : book.bid = bid := by simpa using List.find?_some hb
  refine ⟨⟨?_, ?_, ?_, ?_⟩, ?_, ?_, ?_⟩
  · intro s hs
    rcases List.mem_append.mp hs with hs | hs
    · exact Nat.lt_succ_of_lt (hsid s hs)
    · simp at hs
      subst hs
      exact Nat.lt_succ_self _
  · rw [List.map_append, List.nodup_append]
    refine ⟨hnd, List.nodup_singleton _, ?_⟩
    intro x hx hx'
    simp at hx'
    subst hx'
    rcases List.mem_map.mp hx with ⟨s, hsmem, hssid⟩
    exact absurd (hssid ▸ hsid s hsmem) (lt_irrefl _)
  · intro s hs
    rcases List.mem_append.mp hs with hs | hs
    · obtain ⟨b, hbmem', hbeq⟩ := href s hs
      obtain ⟨b', hb'mem, hb'eq⟩ := mem_updateStockWhere_of_mem db.books bid
        (fun x => x - sqty) b hbmem'
      exact ⟨b', hb'mem, hb'eq.trans hbeq⟩
    · simp at hs
      subst hs
      obtain ⟨b', hb'mem, hb'eq⟩ := mem_updateStockWhere_of_mem db.books bid
        (fun x => x - sqty) book hbmem
      exact ⟨b', hb'mem, hb'eq.trans hbbid⟩
  · intro s hs
    rcases List.mem_append.mp hs with hs | hs
    · exact hqty s hs
    · simp at hs
      subst hs
      exact hq
  · rw [map_bid_updateStockWhere]
    exact hbid
  · rw [map_bprice_updateStockWhere]
    exact hprice
  · intro bid'
    by_cases hbeq : bid' = bid
    · subst hbeq
      have h1 : stockOf
          ({ db with
              sales := db.sales ++ [⟨db.nextSid, sdate, mid, bid', sqty, sdiscount,
                book.bprice * sqty - sdiscount⟩],
              nextSid := db.nextSid + 1,
              books := updateStockWhere db.books bid' (fun x => x - sqty) } : DB)
          bid' = book.bstock - sqty :=
        stockOf_upd_eq _ db bid' (fun x => x - sqty) rfl book hb
      have h2 := salesSum_append
        ({ db with
            sales := db.sales ++ [⟨db.nextSid, sdate, mid, bid', sqty, sdiscount,
              book.bprice * sqty - sdiscount⟩],
            nextSid := db.nextSid + 1,
            books := updateStockWhere db.books bid' (fun x => x - sqty) } : DB)
        db ⟨db.nextSid, sdate, mid, bid', sqty, sdiscount,
          book.bprice * sqty - sdiscount⟩ rfl bid'
      have hcond : ((⟨db.nextSid, sdate, mid, bid', sqty, sdiscount,
          book.bprice * sqty - sdiscount⟩ : Sale).bid == bid') = true := by
        simp
      rw [h1, h2, if_pos hcond]
      have hstock : stockOf db bid' = book.bstock := by
        unfold stockOf
        rw [hb]
      rw [← hacct bid', hstock]
      ring
    · have h1 : stockOf
          ({ db with
              sales := db.sales ++ [⟨db.nextSid, sdate, mid, bid, sqty, sdiscount,
                book.bprice * sqty - sdiscount⟩],
              nextSid := db.nextSid + 1,
              books := updateStockWhere db.books bid (fun x => x - sqty) } : DB)
          bid' = stockOf db bid' :=
        stockOf_upd_ne _ db bid (fun x => x - sqty) rfl bid' hbeq
      have h2 := salesSum_append
        ({ db with
            sales := db.sales ++ [⟨db.nextSid, sdate, mid, bid, sqty, sdiscount,
              book.bprice * sqty - sdiscount⟩],
            nextSid := db.nextSid + 1,
            books := updateStockWhere db.books bid (fun x => x - sqty) } : DB)
        db ⟨db.nextSid, sdate, mid, bid, sqty, sdiscount,
          book.bprice * sqty - sdiscount⟩ rfl bid'
      have hbne : (bid == bid') = false := beq_eq_false_iff_ne.mpr fun hc => hbeq hc.symm
      rw [h1, h2]
      simp only [hbne, if_neg Bool.false_ne_true, add_zero]
      exact hacct bid'

theorem inv_upd (σ₀ db : DB) (sid : Nat) (d : Int) (hI : Inv σ₀ db)
    (h : (update_sale db sid d).2 = none) :
    Inv σ₀ (update_sale db sid d).1 := by
  obtain ⟨s, hs, book, hb, heq⟩ := update_sale_ok db sid d h
  obtain ⟨⟨hsid, hnd, href, hqty⟩, hbid, hprice, hacct⟩ := hI
  rw [heq]
  refine ⟨⟨?_, ?_, ?_, ?_⟩, hbid, hprice, ?_⟩
  · intro t ht
    rcases List.mem_map.mp ht with ⟨u, humem, huv⟩
    rw [← huv, (tuple_updateDiscount sid d _ u).1]
    exact hsid u humem
  · rw [map_sid_saleUpdate]
    exact hnd
  · intro t ht
    rcases List.mem_map.mp ht with ⟨u, humem, huv⟩
    obtain ⟨hv1, hv2, hv3, hv4, hv5⟩ := tuple_updateDiscount sid d
      (book.bprice * s.sqty - d) u
    rw [← huv, hv4]
    exact href u humem
  · intro t ht
    rcases List.mem_map.mp ht with ⟨u, humem, huv⟩
    rw [← huv, (tuple_updateDiscount sid d _ u).2.2.2.2]
    exact hqty u humem
  · intro bid'
    have h1 : stockOf
        ({ db with
            sales := db.sales.map (fun t =>
              if t.sid == sid then
                { t with sdiscount := d, stotal := book.bprice * s.sqty - d }
              else t) } : DB) bid' = stockOf db bid' :=
      stockOf_eq_of_books_eq _ db rfl bid'
    have h2 : salesSum
        ({ db with
            sales := db.sales.map (fun t =>
              if t.sid == sid then
                { t with sdiscount := d, stotal := book.bprice * s.sqty - d }
              else t) } : DB) bid' = salesSum db bid' :=
      salesSum_saleUpdate _ db sid d (book.bprice * s.sqty - d) rfl bid'
    rw [h1, h2]
    exact hacct bid'

theorem inv_del (σ₀ db : DB) (sid : Nat) (hI : Inv σ₀ db)
    (h : (delete_sale db sid).2 = none) :
    Inv σ₀ (delete_sale db sid).1 := by
  obtain ⟨s, hs, heq⟩ := delete_sale_ok db sid h
  obtain ⟨⟨hsid, hnd, href, hqty⟩, hbid, hprice, hacct⟩ := hI
  rw [heq]
  have hsub : List.Sublist (db.sales.filter (fun t => ! (t.sid == sid))) db.sales :=
    List.filter_sublist db.sales
  have hsmem : s ∈ db.sales := List.mem_of_find?_eq_some hs
  refine ⟨⟨?_, ?_, ?_, ?_⟩, ?_, ?_, ?_⟩
  · intro t ht
    exact hsid t (hsub.mem ht)
  · exact hnd.sublist (hsub.map Sale.sid)
  · intro t ht
    obtain ⟨b, hbmem, hbeq⟩ := href t (hsub.mem ht)
    obtain ⟨b', hb'mem, hb'eq⟩ := mem_updateStockWhere_of_mem db.books s.bid
      (fun x => x + s.sqty) b hbmem
    exact ⟨b', hb'mem, hb'eq.trans hbeq⟩
  · intro t ht
    exact hqty t (hsub.mem ht)
  · rw [map_bid_updateStockWhere]
    exact hbid
  · rw [map_bprice_updateStockWhere]
    exact hprice
  · intro bid'
    have h2 : salesSum
        ({ db with
            books := updateStockWhere db.books s.bid (fun x => x + s.sqty),
            sales := db.sales.filter (fun t => ! (t.sid == sid)) } : DB) bid' =
        salesSum db bid' - (if s.bid == bid' then s.sqty else 0) :=
      salesSum_delete _ db sid s rfl hs hnd bid'
    by_cases hbeq : bid' = s.bid
    · subst hbeq
      obtain ⟨b, hbmem, hbb⟩ := href s hsmem
      have hfb : ∃ b₁, findBook db s.bid = some b₁ := by
        have hsome : (db.books.find? (fun x => x.bid == s.bid)).isSome := by
          rw [List.find?_isSome]
          exact ⟨b, hbmem, by simp [hbb]⟩
        unfold findBook
        exact Option.isSome_iff_exists.mp hsome
      obtain ⟨b₁, hb₁⟩ := hfb
      have h1 : stockOf
          ({ db with
              books := updateStockWhere db.books s.bid (fun x => x + s.sqty),
              sales := db.sales.filter (fun t => ! (t.sid == sid)) } : DB) s.bid =
          b₁.bstock + s.sqty :=
        stockOf_upd_eq _ db s.bid (fun x => x + s.sqty) rfl b₁ hb₁
      have hstock : stockOf db s.bid = b₁.bstock := by
        unfold stockOf
        rw [hb₁]
      have hcond : (s.bid == s.bid) = true := by simp
      rw [h1, h2, if_pos hcond, ← hacct s.bid, hstock]
      ring
    · have hne : (s.bid == bid') = false :=
        beq_eq_false_iff_ne.mpr fun hc => hbeq hc.symm
      have h1 : stockOf
          ({ db with
              books := updateStockWhere db.books s.bid (fun x => x + s.sqty),
              sales := db.sales.filter (fun t => ! (t.sid == sid)) } : DB) bid' =
          stockOf db bid' :=
        stockOf_upd_ne _ db s.bid (fun x => x + s.sqty) rfl bid' hbeq
      rw [h1, h2, hne, if_neg Bool.false_ne_true, sub_zero]
      exact hacct bid'

theorem inv_step (σ₀ db db' : DB) (hstep : Step db db') (hI : Inv σ₀ db) :
    Inv σ₀ db' := by
  cases hstep with
  | add sdate mid bid sqty sdiscount h => exact inv_add σ₀ db sdate mid bid sqty sdiscount hI h
  | upd sid d h => exact inv_upd σ₀ db sid d hI h
  | del sid h => exact inv_del σ₀ db sid hI h

theorem inv_reachable (σ₀ db : DB) (h : Reachable σ₀ db) (hg : GoodState σ₀) :
    Inv σ₀ db := by
  induction h with
  | refl => exact ⟨hg, rfl, rfl, fun bid => rfl⟩
  | tail hr hs ih => exact inv_step _ _ _ hs ih

/-! ### Non-negativity of stock -/

theorem nonneg_step (σ₀ db db' : DB) (hstep : Step db db') (hI : Inv σ₀ db)
    (hnodup : (σ₀.books.map Book.bid).Nodup)
    (hnn : ∀ b ∈ db.books, 0 ≤ b.bstock) :
    ∀ b ∈ db'.books, 0 ≤ b.bstock := by
  obtain ⟨⟨hsid, hnd, href, hqty⟩, hbid, hprice, hacct⟩ := hI
  have hnodup' : (db.books.map Book.bid).Nodup := by
    rw [hbid]
    exact hnodup
  cases hstep with
  | add sdate mid bid sqty sdiscount h =>
    obtain ⟨hd, ⟨m, hm⟩, book, hb, hq, hdisc, hstk, heq⟩ :=
      add_sale_ok db sdate mid bid sqty sdiscount h
    rw [heq]
    intro b' hb'
    rcases List.mem_map.mp hb' with ⟨b, hbmem, hbv⟩
    by_cases hc : b.bid == bid
    · rw [← hbv, if_pos hc]
      have hbookmem : book ∈ db.books := List.mem_of_find?_eq_some hb
      have hbookbid : book.bid = bid := by simpa using List.find?_some hb
      have hbeq : b = book := by
        apply List.inj_on_of_nodup_map hnodup' hbmem hbookmem
        rw [hbookbid]
        simpa using hc
      subst hbeq
      simpa using hstk
    · rw [← hbv, if_neg hc]
      exact hnn b hbmem
  | upd sid d h =>
    obtain ⟨s, hs, book, hbk, heq⟩ := update_sale_ok db sid d h
    rw [heq]
    exact hnn
  | del sid h =>
    obtain ⟨s, hs, heq⟩ := delete_sale_ok db sid h
    rw [heq]
    intro b' hb'
    rcases List.mem_map.mp hb' with ⟨b, hbmem, hbv⟩
    have hsq : 0 < s.sqty := hqty s (List.mem_of_find?_eq_some hs)
    have hbs : 0 ≤ b.bstock := hnn b hbmem
    by_cases hc : b.bid == s.bid
    · rw [← hbv, if_pos hc]
      dsimp only
      omega
    · rw [← hbv, if_neg hc]
      exact hbs

theorem nonneg_reachable (σ₀ db : DB) (h : Reachable σ₀ db) (hg : GoodState σ₀)
    (hnodup : (σ₀.books.map Book.bid).Nodup)
    (hnn : ∀ b ∈ σ₀.books, 0 ≤ b.bstock) :
    ∀ b ∈ db.books, 0 ≤ b.bstock := by
  induction h with
  | refl => exact hnn
  | tail hr hs ih =>
    exact nonneg_step _ _ _ hs (inv_reachable _ _ hr hg) hnodup ih

/-! ### Shared concrete states and facts -/

theorem goodState_seed : GoodState seedDB :=
  ⟨by decide, by decide, by decide, by decide⟩

theorem reachable_afterSale1 : Reachable seedDB afterSale1 :=
  Reachable.tail (Reachable.refl seedDB)
    (Step.add "2024-01-15" "M001" "B001" 2 50 (by decide))

theorem digit_ne_dash (c : Char) (h : c.isDigit = true) : (c == '-') = false := by
  by_cases hc : c = '-'
  · subst hc
    exact absurd h (by decide)
  · exact beq_eq_false_iff_ne.mpr hc

theorem findBook_price_eq (l₁ l₂ : List Book)
    (hbid : l₁.map Book.bid = l₂.map Book.bid)
    (hprice : l₁.map Book.bprice = l₂.map Book.bprice) (bid : String) :
    (l₁.find? (fun b => b.bid == bid)).map Book.bprice =
      (l₂.find? (fun b => b.bid == bid)).map Book.bprice := by
  induction l₁ generalizing l₂ with
  | nil =>
    cases l₂ with
    | nil => rfl
    | cons c cs => simp at hbid
  | cons b bs ih =>
    cases l₂ with
    | nil => simp at hbid
    | cons c cs =>
      simp only [List.map_cons, List.cons.injEq] at hbid hprice
      rw [List.find?_cons, List.find?_cons, hbid.1]
      cases hcb : c.bid == bid
      · exact ih cs hbid.2 hprice.2
      · simp [hprice.1]

/-! ### The claims -/

/-- C9: seeding is idempotent: running `initialize_db` once or any number of
times on the empty store yields the same state, holding exactly one member
row (`M001`) and exactly one book row (`B001`). -/
theorem initialize_db_idempotent :
    (∀ n : Nat, initialize_db^[n + 1] emptyDB = initialize_db emptyDB) ∧
    ((initialize_db emptyDB).members.filter (fun m => m.mid == "M001")).length
      = 1 ∧
    ((initialize_db emptyDB).books.filter (fun b => b.bid == "B001")).length
      = 1 ∧
    (initialize_db emptyDB).members.length = 1 ∧
    (initialize_db emptyDB).books.length = 1 := by
  have hfix : initialize_db (initialize_db emptyDB) = initialize_db emptyDB := by
    decide
  refine ⟨?_, by decide, by decide, by decide, by decide⟩
  intro n
  induction n with
  | zero => rfl
  | succ k ih =>
    rw [Function.iterate_succ_apply', ih]
    exact hfix

/-- C10 (implicit): deleting an existing sale whose referenced book row is
absent still succeeds and removes the sale row, while the stock-restore
update matches no book row and is a no-op: every table other than `sale` is
unchanged, and no stock anywhere changes. -/
theorem delete_sale_missing_book (db : DB) (sid : Nat) (s : Sale)
    (hs : findSale db sid = some s) (hb : findBook db s.bid = none) :
    (delete_sale db sid).2 = none ∧
    (delete_sale db sid).1.books = db.books ∧
    (delete_sale db sid).1.members = db.members ∧
    findSale (delete_sale db sid).1 sid = none := by
  have habsent : ∀ b ∈ db.books, (b.bid == s.bid) = false := by
    intro b hbmem
    have := List.find?_eq_none.mp hb b hbmem
    simpa using this
  unfold delete_sale
  rw [hs]
  dsimp only
  refine ⟨rfl, ?_, rfl, ?_⟩
  · exact updateStockWhere_eq_of_absent db.books s.bid _ habsent
  · unfold findSale
    rw [List.find?_eq_none]
    intro t ht
    have := (List.mem_filter.mp ht).2
    simpa using this

theorem delete_sale_missing_book_witness :
    (delete_sale orphanDB 1).2 = none ∧
    (delete_sale orphanDB 1).1.books = orphanDB.books ∧
    (delete_sale orphanDB 1).1.members = orphanDB.members ∧
    findSale (delete_sale orphanDB 1).1 1 = none :=
  delete_sale_missing_book orphanDB 1
    ⟨1, "2024-01-15", "M001", "B999", 2, 0, 1000⟩ (by decide) (by decide)

/-- C6 counterexample: the date `"20240115--"` is not in calendar-date shape
`YYYY-MM-DD`, yet create-sale accepts it (the check only counts characters
and separators, it does not fix their positions), so the claim that every
non-shape date is rejected with `InvalidInput` is false. -/
theorem add_sale_date_shape_cex :
    calendarShape "20240115--" = false ∧
    (add_sale seedDB "20240115--" "M001" "B001" 1 0).2 = none := by
  exact ⟨by decide, by decide⟩

/-- C6 (amended): create-sale rejects with `InvalidInput` exactly the date
strings whose character count is not 10 or whose separator count is not 2;
the rejection depends on no store content (it happens before any lookup,
returning the store unchanged), and every well-formed `YYYY-MM-DD` date
passes the check.  Dash positions are not checked, so some non-shape strings
also pass. -/
theorem add_sale_date_check (db : DB) (sdate mid bid : String)
    (sqty sdiscount : Int) :
    ((add_sale db sdate mid bid sqty sdiscount).2 = some Err.invalidDate ↔
      dateOk sdate = false) ∧
    (dateOk sdate = false →
      add_sale db sdate mid bid sqty sdiscount = (db, some Err.invalidDate)) ∧
    (calendarShape sdate = true → dateOk sdate = true) := by
  refine ⟨?_, ?_, ?_⟩
  · constructor
    · intro h
      by_cases hd : dateOk sdate
      · exfalso
        unfold add_sale at h
        rw [if_neg (by simp [hd])] at h
        cases hm : findMember db mid with
        | none => rw [hm] at h; simp at h
        | some m =>
          rw [hm] at h
          dsimp only at h
          cases hb : findBook db bid with
          | none => rw [hb] at h; simp at h
          | some book =>
            rw [hb] at h
            dsimp only at h
            by_cases hq : sqty ≤ 0 ∨ sdiscount < 0
            · rw [if_pos hq] at h; simp at h
            · rw [if_neg hq] at h
              by_cases hst : book.bstock < sqty
              · rw [if_pos hst] at h; simp at h
              · rw [if_neg hst] at h; simp at h
      · simpa using hd
    · intro h
      unfold add_sale
      rw [if_pos (by simp [h])]
  · intro h
    unfold add_sale
    rw [if_pos (by simp [h])]
  · intro h
    unfold calendarShape at h
    unfold dateOk
    split at h
    next y1 y2 y3 y4 s1 m1 m2 s2 d1 d2 heq =>
      simp only [Bool.and_eq_true, and_assoc] at h
      rcases h with ⟨h1, h2, h3, h4, hs1, h5, h6, hs2, h7, h8⟩
      have hd1 : s1 = '-' := by simpa using hs1
      have hd2 : s2 = '-' := by simpa using hs2
      subst hd1
      subst hd2
      rw [show sdate.length = sdate.toList.length from rfl, heq]
      simp [List.count_cons, digit_ne_dash y1 h1, digit_ne_dash y2 h2,
        digit_ne_dash y3 h3, digit_ne_dash y4 h4, digit_ne_dash m1 h5,
        digit_ne_dash m2 h6, digit_ne_dash d1 h7, digit_ne_dash d2 h8]
    next heq2 =>
      simp at h

/-- C4: create-sale validates fail-fast in the fixed order date shape,
member exists, book exists, quantity/discount signs, sufficient stock: each
error is returned exactly when its check is the first to fail, and any
failure leaves the store unchanged. -/
theorem add_sale_validation (db : DB) (sdate mid bid : String)
    (sqty sdiscount : Int) :
    ((add_sale db sdate mid bid sqty sdiscount).2 = some Err.invalidDate ↔
      dateOk sdate = false) ∧
    ((add_sale db sdate mid bid sqty sdiscount).2 = some Err.memberNotFound ↔
      dateOk sdate = true ∧ findMember db mid = none) ∧
    ((add_sale db sdate mid bid sqty sdiscount).2 = some Err.bookNotFound ↔
      dateOk sdate = true ∧ (∃ m, findMember db mid = some m) ∧
        findBook db bid = none) ∧
    ((add_sale db sdate mid bid sqty sdiscount).2 = some Err.invalidQtyOrDiscount ↔
      dateOk sdate = true ∧ (∃ m, findMember db mid = some m) ∧
        (∃ b, findBook db bid = some b) ∧ (sqty ≤ 0 ∨ sdiscount < 0)) ∧
    ((add_sale db sdate mid bid sqty sdiscount).2 = some Err.insufficientStock ↔
      dateOk sdate = true ∧ (∃ m, findMember db mid = some m) ∧
        (∃ b, findBook db bid = some b ∧ ¬ (sqty ≤ 0 ∨ sdiscount < 0) ∧
          b.bstock < sqty)) ∧
    (∀ e, (add_sale db sdate mid bid sqty sdiscount).2 = some e →
      (add_sale db sdate mid bid sqty sdiscount).1 = db) := by
  refine ⟨?_, ?_, ?_, ?_, ?_,
    fun e he => add_sale_err_state db sdate mid bid sqty sdiscount e he⟩ <;>
    (unfold add_sale
     by_cases hd : dateOk sdate
     case neg =>
       have hd' : dateOk sdate = false := by simpa using hd
       rw [if_pos (by simp [hd'])]
       simp [hd']
     case pos =>
       rw [if_neg (by simp [hd])]
       cases hm : findMember db mid with
       | none => simp [hd, hm]
       | some m =>
         dsimp only
         cases hb : findBook db bid with
         | none => simp [hd, hm, hb]
         | some book =>
           dsimp only
           by_cases hq : sqty ≤ 0 ∨ sdiscount < 0
           case pos => rw [if_pos hq]; simp [hd, hm, hb, hq]
           case neg =>
             rw [if_neg hq]
             by_cases hst : book.bstock < sqty
             case pos => rw [if_pos hst]; simp [hd, hm, hb, hq, hst]
             case neg => rw [if_neg hst]; simp [hd, hm, hb, hq, hst])

/-- C8: updating a sale's discount changes only that sale's `sdiscount` and
`stotal` columns: members, books (hence every stock), the id counter, and
the key fields (id, date, member, book, quantity) of every sale row are
unchanged, and every other sale row is kept as it was. -/
theorem update_sale_frame (db : DB) (sid : Nat) (d : Int) :
    (update_sale db sid d).1.members = db.members ∧
    (update_sale db sid d).1.books = db.books ∧
    (update_sale db sid d).1.nextSid = db.nextSid ∧
    (update_sale db sid d).1.sales.map
        (fun s => (s.sid, s.sdate, s.mid, s.bid, s.sqty)) =
      db.sales.map (fun s => (s.sid, s.sdate, s.mid, s.bid, s.sqty)) ∧
    ∀ t ∈ db.sales, t.sid ≠ sid → t ∈ (update_sale db sid d).1.sales := by
  cases hres : (update_sale db sid d).2 with
  | some e =>
    have h1 := update_sale_err_state db sid d e hres
    rw [h1]
    exact ⟨rfl, rfl, rfl, rfl, fun t ht _ => ht⟩
  | none =>
    obtain ⟨s, hs, book, hb, heq⟩ := update_sale_ok db sid d hres
    rw [heq]
    refine ⟨rfl, rfl, rfl, map_frame_saleUpdate db.sales sid d _, ?_⟩
    intro t ht hne
    have hfix : (if t.sid == sid then
        { t with sdiscount := d, stotal := book.bprice * s.sqty - d }
      else t) = t := by
      rw [if_neg]
      simp [hne]
    dsimp only
    rw [← hfix]
    exact List.mem_map_of_mem _ ht

/-- C1: stock conservation: under any sequence of successful operations
starting from a state with no sales (such as the seeded store), every book's
stock equals its initial stock minus the total quantity of the
currently-undeleted sale rows referencing it. -/
theorem stock_conservation (σ₀ db : DB) (bid : String)
    (h : Reachable σ₀ db) (h0 : σ₀.sales = []) :
    stockOf db bid = stockOf σ₀ bid - salesSum db bid := by
  have hg : GoodState σ₀ := by
    refine ⟨?_, ?_, ?_, ?_⟩ <;> rw [h0] <;> simp
  have hI := inv_reachable σ₀ db h hg
  have hacct := hI.2.2.2 bid
  have h0sum : salesSum σ₀ bid = 0 := by
    unfold salesSum
    rw [h0]
    rfl
  rw [h0sum] at hacct
  linarith

theorem stock_conservation_witness :
    stockOf afterSale1 "B001" = stockOf seedDB "B001" - salesSum afterSale1 "B001" :=
  stock_conservation seedDB afterSale1 "B001" reachable_afterSale1 (by decide)

/-- C2: a successful create-sale inserts exactly one new sale row carrying
the fresh sequential id (different from every existing sale id, and the
counter advances by one), with stored total `bprice * sqty - sdiscount`
computed as-is (no floor: it may be negative), and decrements the referenced
book's stock by exactly the quantity. -/
theorem add_sale_effect (db : DB) (sdate mid bid : String) (sqty sdiscount : Int)
    (hr : Reachable seedDB db)
    (h : (add_sale db sdate mid bid sqty sdiscount).2 = none) :
    ∃ book, findBook db bid = some book ∧
      (add_sale db sdate mid bid sqty sdiscount).1.sales =
        db.sales ++ [⟨db.nextSid, sdate, mid, bid, sqty, sdiscount,
          book.bprice * sqty - sdiscount⟩] ∧
      (∀ s ∈ db.sales, s.sid ≠ db.nextSid) ∧
      (add_sale db sdate mid bid sqty sdiscount).1.nextSid = db.nextSid + 1 ∧
      stockOf (add_sale db sdate mid bid sqty sdiscount).1 bid =
        stockOf db bid - sqty := by
  obtain ⟨hd, ⟨m, hm⟩, book, hb, hq, hdisc, hstk, heq⟩ :=
    add_sale_ok db sdate mid bid sqty sdiscount h
  have hI := inv_reachable seedDB db hr goodState_seed
  refine ⟨book, hb, ?_, ?_, ?_, ?_⟩
  · rw [heq]
  · intro s hsmem
    exact Nat.ne_of_lt (hI.1.1 s hsmem)
  · rw [heq]
  · have hbooks : (add_sale db sdate mid bid sqty sdiscount).1.books =
        updateStockWhere db.books bid (fun x => x - sqty) := by
      rw [heq]
    have h1 := stockOf_upd_eq _ db bid (fun x => x - sqty) hbooks book hb
    rw [h1]
    have hstock : stockOf db bid = book.bstock := by
      unfold stockOf
      rw [hb]
    rw [hstock]

theorem add_sale_effect_witness :
    stockOf (add_sale seedDB "2024-01-15" "M001" "B001" 2 1100).1 "B001" =
      stockOf seedDB "B001" - 2 := by
  obtain ⟨book, hb, h1, h2, h3, h4⟩ :=
    add_sale_effect seedDB "2024-01-15" "M001" "B001" 2 1100
      (Reachable.refl seedDB) (by decide)
  exact h4

/-- C3: every book's stock is non-negative in every state reachable from the
seeded store by the core operations. -/
theorem stock_nonneg (db : DB) (h : Reachable seedDB db) :
    ∀ b ∈ db.books, 0 ≤ b.bstock :=
  nonneg_reachable seedDB db h goodState_seed (by decide) (by decide)

theorem stock_nonneg_witness :
    0 ≤ (⟨"B001", "Python入門", 500, 8⟩ : Book).bstock :=
  stock_nonneg afterSale1 reachable_afterSale1
    ⟨"B001", "Python入門", 500, 8⟩ (by decide)

/-- C5: on a reachable store, updating a sale's discount succeeds whenever
the sale row exists, and persists, in one write, both the new discount and a
new total equal to the book's price (unchanged since the initial state, and
hence since the sale's creation, as no operation writes prices) times the
sale's original quantity minus the new discount. -/
theorem update_sale_total (db : DB) (sid : Nat) (d : Int) (s : Sale) (b₀ : Book)
    (hr : Reachable seedDB db)
    (hs : findSale db sid = some s) (hb₀ : findBook seedDB s.bid = some b₀) :
    (update_sale db sid d).2 = none ∧
    ∃ s', findSale (update_sale db sid d).1 sid = some s' ∧
      s'.sdiscount = d ∧ s'.stotal = b₀.bprice * s.sqty - d ∧
      s'.sqty = s.sqty := by
  have hI := inv_reachable seedDB db hr goodState_seed
  obtain ⟨⟨hsid, hnd, href, hqty⟩, hbid, hprice, hacct⟩ := hI
  have hsmem : s ∈ db.sales := List.mem_of_find?_eq_some hs
  obtain ⟨b, hbmem, hbb⟩ := href s hsmem
  have hsome : (db.books.find? (fun x => x.bid == s.bid)).isSome := by
    rw [List.find?_isSome]
    exact ⟨b, hbmem, by simp [hbb]⟩
  obtain ⟨b₁, hb₁⟩ := Option.isSome_iff_exists.mp hsome
  have hb₁' : findBook db s.bid = some b₁ := hb₁
  have hsucc : (update_sale db sid d).2 = none := by
    unfold update_sale
    rw [hs]
    dsimp only
    rw [hb₁']
  refine ⟨hsucc, ?_⟩
  obtain ⟨s2, hs2, book, hbk, heq⟩ := update_sale_ok db sid d hsucc
  have hseq : s2 = s := by
    rw [hs] at hs2
    exact (Option.some.inj hs2).symm
  subst hseq
  have hbeq2 : b₁ = book := by
    rw [hb₁'] at hbk
    exact Option.some.inj hbk
  have hpr : (findBook db s2.bid).map Book.bprice =
      (findBook seedDB s2.bid).map Book.bprice :=
    findBook_price_eq db.books seedDB.books hbid hprice s2.bid
  rw [hb₁', hb₀] at hpr
  have hpr' : book.bprice = b₀.bprice := by
    rw [← hbeq2]
    simpa using hpr
  have hss : (s2.sid == sid) = true := by simpa using List.find?_some hs
  have hsales : (update_sale db sid d).1.sales = db.sales.map (fun t =>
      if t.sid == sid then
        { t with sdiscount := d, stotal := book.bprice * s2.sqty - d }
      else t) := by
    rw [heq]
  have hfind : findSale (update_sale db sid d).1 sid =
      some (if s2.sid == sid then
        { s2 with sdiscount := d, stotal := book.bprice * s2.sqty - d }
      else s2) := by
    unfold findSale
    rw [hsales, find?_saleUpdate]
    unfold findSale at hs
    rw [hs]
    rfl
  refine ⟨_, hfind, ?_, ?_, ?_⟩
  · rw [if_pos hss]
  · rw [if_pos hss]
    dsimp only
    rw [hpr']
  · rw [if_pos hss]

theorem update_sale_total_witness :
    (update_sale afterSale1 1 100).2 = none := by
  obtain ⟨h1, h2⟩ := update_sale_total afterSale1 1 100
    ⟨1, "2024-01-15", "M001", "B001", 2, 50, 950⟩
    ⟨"B001", "Python入門", 500, 10⟩ reachable_afterSale1 (by decide) (by decide)
  exact h1

/-- C7: on a reachable store, delete-sale on an existing sale id succeeds,
restores the referenced book's stock by exactly the sale's quantity, and
removes exactly that sale row (every other row survives); on a nonexistent
sale id it returns the sale-not-found error with every table unchanged. -/
theorem delete_sale_spec (db : DB) (sid : Nat) (hr : Reachable seedDB db) :
    (findSale db sid = none →
      delete_sale db sid = (db, some Err.saleNotFound)) ∧
    ∀ s, findSale db sid = some s →
      (delete_sale db sid).2 = none ∧
      stockOf (delete_sale db sid).1 s.bid = stockOf db s.bid + s.sqty ∧
      findSale (delete_sale db sid).1 sid = none ∧
      (∀ t ∈ db.sales, t.sid ≠ sid → t ∈ (delete_sale db sid).1.sales) ∧
      (delete_sale db sid).1.sales.length + 1 = db.sales.length := by
  have hI := inv_reachable seedDB db hr goodState_seed
  obtain ⟨⟨hsid, hnd, href, hqty⟩, hbid, hprice, hacct⟩ := hI
  refine ⟨delete_sale_not_found db sid, ?_⟩
  intro s hs
  have hsucc : (delete_sale db sid).2 = none := by
    unfold delete_sale
    rw [hs]
  obtain ⟨s2, hs2, heq⟩ := delete_sale_ok db sid hsucc
  have hseq : s2 = s := by
    rw [hs] at hs2
    exact (Option.some.inj hs2).symm
  subst hseq
  have hsales : (delete_sale db sid).1.sales =
      db.sales.filter (fun t => ! (t.sid == sid)) := by
    rw [heq]
  refine ⟨hsucc, ?_, ?_, ?_, ?_⟩
  · obtain ⟨b, hbmem, hbb⟩ := href s2 (List.mem_of_find?_eq_some hs)
    have hsome : (db.books.find? (fun x => x.bid == s2.bid)).isSome := by
      rw [List.find?_isSome]
      exact ⟨b, hbmem, by simp [hbb]⟩
    obtain ⟨b₁, hb₁⟩ := Option.isSome_iff_exists.mp hsome
    have hb₁' : findBook db s2.bid = some b₁ := hb₁
    have hbooks : (delete_sale db sid).1.books =
        updateStockWhere db.books s2.bid (fun x => x + s2.sqty) := by
      rw [heq]
    have h1 := stockOf_upd_eq _ db s2.bid (fun x => x + s2.sqty) hbooks b₁ hb₁'
    rw [h1]
    have hstock : stockOf db s2.bid = b₁.bstock := by
      unfold stockOf
      rw [hb₁']
    rw [hstock]
  · unfold findSale
    rw [hsales, List.find?_eq_none]
    intro t ht
    have := (List.mem_filter.mp ht).2
    simpa using this
  · intro t ht hne
    rw [hsales]
    refine List.mem_filter.mpr ⟨ht, ?_⟩
    simp [hne]
  · rw [hsales]
    exact delete_length db.sales sid s2 hs hnd

theorem delete_sale_spec_witness :
    (delete_sale afterSale1 1).2 = none :=
  (((delete_sale_spec afterSale1 1 reachable_afterSale1).2)
    ⟨1, "2024-01-15", "M001", "B001", 2, 50, 950⟩ (by decide)).1

theorem update_sale_frame_witness :
    (update_sale afterSale1 1 100).1.books = afterSale1.books :=
  (update_sale_frame afterSale1 1 100).2.1

theorem add_sale_validation_witness :
    (add_sale seedDB "2024-01-15" "M999" "B001" 1 0).2 = some Err.memberNotFound :=
  ((add_sale_validation seedDB "2024-01-15" "M999" "B001" 1 0).2.1).mpr (by decide)

theorem add_sale_date_check_witness :
    (add_sale emptyDB "2024/01/15" "M001" "B001" 1 0).2 = some Err.invalidDate :=
  ((add_sale_date_check emptyDB "2024/01/15" "M001" "B001" 1 0).1).mpr (by decide)

end Bookstore
